import Mathlib

/-!
Verification of `conda_forge_feedstock_check_solvable/check_solvable.py`.

A shallow embedding of the module's two public functions and their helper
(`is_recipe_solvable`, `_is_recipe_solvable`, `_is_recipe_solvable_on_platform`)
together with theorems settling the frozen claims about the module.

External collaborators (the conda-build renderer, the mamba/rattler solver
backends, the pin utilities from `utils.py` and the virtual-package repodata)
are modelled as abstract function parameters bundled in an `Ext` record, as the
design document treats them: opaque services specified only by their call
signatures.  Requirement lists that the code manipulates with Python `set`
unions are modelled as `Finset String`.
-/

namespace CheckSolvable

/-! ## String helpers

The code indexes into `basename.split("_")`, joins with `rsplit(".", 1)`,
strips and comma-splits channel entries, and sorts the glob result.  We model
these Python string operations directly over `List Char` so that all of them
evaluate inside the kernel. -/

/-- Python `str.split(c)` on a single-character separator, over char lists.
`splitCharList c []` is `[[]]`, matching `"".split(c) == [""]`. -/
def splitCharList (c : Char) : List Char → List (List Char)
  | [] => [[]]
  | x :: xs =>
    match splitCharList c xs with
    | [] => if x = c then [[], []] else [[x]]
    | h :: t => if x = c then [] :: h :: t else (x :: h) :: t

/-- Python `str.split(c)` for `String`. -/
def splitChar (c : Char) (s : String) : List String :=
  (splitCharList c s.toList).map String.mk

/-- Join char-list chunks with a separator character (inverse of split). -/
def joinChar (c : Char) : List (List Char) → List Char
  | [] => []
  | [x] => x
  | x :: y :: t => x ++ c :: joinChar c (y :: t)

/-- Python `s.rsplit(".", maxsplit=1)[0]` (line 179): the file name with its
last dot-suffix removed, or the whole name when it has no dot. -/
def stripExt (s : String) : String :=
  let parts := splitCharList '.' s.toList
  if parts.length ≤ 1 then s else String.mk (joinChar '.' parts.dropLast)

/-- Python `str.strip()`: drop whitespace on both ends. -/
def trimStr (s : String) : String :=
  String.mk (((s.toList.dropWhile Char.isWhitespace).reverse.dropWhile
    Char.isWhitespace).reverse)

/-- Python `platform.startswith(p)`. -/
def strStartsWith (p s : String) : Bool :=
  p.toList.isPrefixOf s.toList

/-- Lexicographic comparison on code points, modelling Python string `<=`
(used through `sorted(...)` on line 124). -/
def charListLe : List Char → List Char → Bool
  | [], _ => true
  | _ :: _, [] => false
  | x :: xs, y :: ys =>
    if x = y then charListLe xs ys else decide (x.toNat < y.toNat)

/-- String comparison used by the sort. -/
def strLe (a b : String) : Bool := charListLe a.toList b.toList

/-- Insert into a sorted list (helper for `sortStrings`). -/
def insertSorted (s : String) : List String → List String
  | [] => [s]
  | x :: xs => if strLe s x then s :: x :: xs else x :: insertSorted s xs

/-- Python `sorted(...)` over the glob result (line 124), insertion sort by
code-point order. -/
def sortStrings : List String → List String
  | [] => []
  | x :: xs => insertSorted x (sortStrings xs)

/-! ## The platform/arch decomposition (lines 157-161)

```
_parts = os.path.basename(cbc_fname).split("_")
platform = _parts[0]
arch = _parts[1]
if arch not in ["32", "aarch64", "ppc64le", "armv7l", "arm64"]:
    arch = "64"
```

`_parts[1]` raises `IndexError` when the basename contains no underscore;
the `none` result of the embedding records exactly that exception. -/

/-- The recognized architecture tokens of line 160. -/
def archWhitelist : List String := ["32", "aarch64", "ppc64le", "armv7l", "arm64"]

/-- Decomposition of a config file basename into `(platform, arch)`;
`none` models the `IndexError` raised by `_parts[1]` when the name has no
underscore. -/
def parsePlatformArch (basename : String) : Option (String × String) :=
  match splitChar '_' basename with
  | [] => none
  | [_] => none
  | p :: a :: _ => some (p, if a ∈ archWhitelist then a else "64")

/-- The decomposition as the words of claim C7 describe it: first token as
platform and second token as arch when the second token is recognized,
otherwise arch defaults to "64" and the full remainder of the filename is
folded back into the platform token (which reconstitutes the whole basename).
This definition follows the claim's words, to be compared with
`parsePlatformArch`, which follows the code. -/
def claimC7Decompose (basename : String) : Option (String × String) :=
  match splitChar '_' basename with
  | [] => none
  | [_] => some (basename, "64")
  | p :: a :: _ => if a ∈ archWhitelist then some (p, a) else some (basename, "64")

/-! ## Channel sources (lines 210-222)

```
if "channel_sources" in cbc_cfg:
    channel_sources = []
    for source in cbc_cfg["channel_sources"]:
        channel_sources.extend([c.strip() for c in source.split(",")])
else:
    channel_sources = ["conda-forge", "defaults"]
if "msys2" not in channel_sources and platform.startswith("win"):
    channel_sources.append("msys2")
if additional_channels:
    channel_sources = list(additional_channels) + channel_sources
```
-/

/-- The channel list handed to the solver factory, computed exactly as the code
does.  `cfg` is the config's declared `channel_sources` entry (`none` when the
key is absent). -/
def computeChannelSources (cfg : Option (List String)) (platform : String)
    (additional : List String) : List String :=
  let channel_sources :=
    match cfg with
    | some srcs => srcs.flatMap (fun s => (splitChar ',' s).map trimStr)
    | none => ["conda-forge", "defaults"]
  let channel_sources :=
    if "msys2" ∉ channel_sources ∧ strStartsWith "win" platform then
      channel_sources ++ ["msys2"]
    else channel_sources
  if additional ≠ [] then additional ++ channel_sources else channel_sources

/-- The channel list as claim C8 words it: the additional channels followed by
the declared channel sources (comma-joined entries split and stripped, with
the `conda-forge`/`defaults` default), with `msys2` added when the target
platform is Windows-like and that channel is not already present in the
channel-source list.  This definition follows the claim's words, to be
compared with `computeChannelSources`, which follows the code. -/
def claimC8ChannelList (cfg : Option (List String)) (platform : String)
    (additional : List String) : List String :=
  let declared :=
    match cfg with
    | some srcs => srcs.flatMap (fun s => (splitChar ',' s).map trimStr)
    | none => ["conda-forge", "defaults"]
  let declared :=
    if strStartsWith "win" platform ∧ "msys2" ∉ declared then
      declared ++ ["msys2"]
    else declared
  additional ++ declared

/-! ## Metadata, run exports, solver contract -/

/-- The five run-export buckets (design §3, used on lines 338-389). -/
structure RunExports where
  strong : Finset String
  weak : Finset String
  noarch : Finset String
  strong_constrains : Finset String
  weak_constrains : Finset String
deriving DecidableEq

/-- One rendered metadata object, exposing exactly the accessors the code
reads: `name()`, the cross/noarch/build-is-host flags, the requirement lists
and the ignore lists. -/
structure Metadata where
  name : String
  is_cross : Bool
  noarch : Bool
  noarch_python : Bool
  build_is_host : Bool
  build_req : Finset String
  host_req : Finset String
  run_req : Finset String
  run_constrained : Finset String
  test_requires : Finset String
  test_requirements : Finset String
  ign_runex : List String
  ign_runex_from : List String

/-- Result of one `solve()` call: `(solvable, error, resolved reqs, run
exports)` (design §3 SolveResult). -/
structure SolveRes where
  solvable : Bool
  err : Option String
  reqs : Finset String
  rx : RunExports

/-- A solver instance (design §4.4): arguments are the requirement list, the
constraints, the `get_run_exports` flag and the two ignore lists.  The
per-call cooperative sub-budget that one backend accepts is absorbed into the
abstract function. -/
structure Solver where
  solve : Finset String → Finset String → Bool → List String → List String → SolveRes

/-- The external collaborators: the template renderer (keyed by the config
file and the channel list), the two solver factories, the pin utilities from
`utils.py` and the virtual-package repodata channel. -/
structure Ext where
  render : String → List String → String → String → List Metadata
  rattlerFactory : List String → String → Solver
  mambaFactory : List String → String → Solver
  removeReqsByName : Finset String → List String → Finset String
  applyPins : Finset String → Finset String → Finset String → List String → Metadata → Finset String
  replacePinCompatible : Finset String → Finset String → Finset String
  vpr : String

/-! ## Run-export propagation (lines 338-356) -/

/-- Propagation of the build solve's run exports into `host_req`, `run_req`
and `run_constrained`, transcribed from lines 338-356:

```
run_constrained = list(set(run_constrained) | build_rx["strong_constrains"])
if m.is_cross:
    host_req = list(set(host_req) | build_rx["strong"])
    if not (m.noarch or m.noarch_python):
        run_req = list(set(run_req) | build_rx["strong"])
else:
    if m.noarch or m.noarch_python:
        if m.build_is_host:
            run_req = list(set(run_req) | build_rx["noarch"])
    else:
        run_req = list(set(run_req) | build_rx["strong"])
        if m.build_is_host:
            run_req = list(set(run_req) | build_rx["weak"])
            run_constrained = list(set(run_constrained) | build_rx["weak_constrains"])
        else:
            host_req = list(set(host_req) | build_rx["strong"])
```

Returns `(host_req, run_req, run_constrained)`. -/
def propagateBuildRx (m : Metadata) (rx : RunExports)
    (host_req run_req run_constrained : Finset String) :
    Finset String × Finset String × Finset String :=
  let run_constrained := run_constrained ∪ rx.strong_constrains
  if m.is_cross then
    let host_req := host_req ∪ rx.strong
    let run_req :=
      if !(m.noarch || m.noarch_python) then run_req ∪ rx.strong else run_req
    (host_req, run_req, run_constrained)
  else
    if m.noarch || m.noarch_python then
      if m.build_is_host then (host_req, run_req ∪ rx.noarch, run_constrained)
      else (host_req, run_req, run_constrained)
    else
      let run_req := run_req ∪ rx.strong
      if m.build_is_host then
        (host_req, run_req ∪ rx.weak, run_constrained ∪ rx.weak_constrains)
      else
        (host_req ∪ rx.strong, run_req, run_constrained)

/-! ## The regime table of §4.3 step 3 (claim C2)

Row 1: `is_cross` (the noarch column only modulates which buckets flow).
Row 2: native, noarch, build-is-host.  Row 3: native, non-noarch,
build-is-host.  Row 4: native, non-noarch, not build-is-host. -/

/-- Whether table row `i` applies to the triple
`(is_cross, noarch-or-noarch-python, build_is_host)`. -/
def rowMatches (i : Fin 4) (cross nd bih : Bool) : Bool :=
  match i with
  | 0 => cross
  | 1 => !cross && nd && bih
  | 2 => !cross && !nd && bih
  | 3 => !cross && !nd && !bih

/-- Number of table rows applying to a given triple. -/
def rowCount (cross nd bih : Bool) : Nat :=
  ((List.finRange 4).filter (fun i => rowMatches i cross nd bih)).length

/-! ## The caller-owned `additional_channels` list (lines 115-118, claim C10)

```
additional_channels = additional_channels or []
additional_channels += [virtual_package_repodata()]
```

Python aliasing: when the caller passes a non-empty list, `or` rebinds the
name to the caller's own list object and `+=` then extends that object in
place; when the caller passes an empty list (or `None`), `or` rebinds to a
fresh list and the caller's object is untouched. -/

/-- Contents of the caller's `additional_channels` list object after
`_is_recipe_solvable` has run its first two statements. -/
def additionalChannelsAfterCall (l : List String) (vpr : String) : List String :=
  if l.isEmpty then l else l ++ [vpr]

/-! ## Timeout timer and exceptions

`TimeoutTimer` / `TimeoutTimerException` live in `utils.py`, outside the file
under verification; the model below follows the design document. -/

/-- Modelled from the spec: `utils.TimeoutTimer` (design §3, §4.1) holds a
deadline equal to its creation time plus a budget, and `raise_for_timeout()`
fails with a timeout signal the moment the wall clock exceeds the budget.
`clock` is the ambient sequence of wall-clock elapsed readings that successive
checkpoints will observe (an empty tail means no further measurable time
passes). -/
structure TimerState where
  budget : Nat
  clock : List Nat
deriving DecidableEq

/-- The exceptions the module can raise: the shared timeout signal, the
`IndexError` from `_parts[1]` on line 159, and the `ValueError` for an unknown
solver backend on line 290. -/
inductive Exc where
  | timeout
  | indexError
  | valueError
deriving DecidableEq

/-- One `timeout_timer.raise_for_timeout()` checkpoint: observe the next clock
reading and raise the timeout signal when it exceeds the budget. -/
def check (t : TimerState) : Except Exc TimerState :=
  match t.clock with
  | [] => .ok t
  | e :: rest => if t.budget < e then .error .timeout else .ok ⟨t.budget, rest⟩

/-! ## The per-metadata phase chain (lines 304-445)

Each phase follows the same policy (lines 330-336, 371-377, 412-418,
439-445):

```
solvable = solvable and _solvable
if _err is not None:
    errors.append(_err)
if not solvable and fail_fast:
    break            # leaves the whole `for m, _, _ in metas` loop
if not _solvable:
    continue         # skips the remaining phases of this metadata only
```

The `evs` field is ghost instrumentation: it records, in order, every
`solve()` call the chain actually makes, with the phase, the reported
solvability and the reported error.  It affects nothing else. -/

/-- Phase tags for the ghost trace. -/
inductive Ph where
  | bld
  | hst
  | runp
  | tst
deriving DecidableEq

/-- One recorded `solve()` call. -/
structure Ev where
  ph : Ph
  ok : Bool
  err : Option String
deriving DecidableEq

/-- The requirement lists the chain threads from phase to phase. -/
structure Reqs where
  build_req : Finset String
  host_req : Finset String
  run_req : Finset String
  run_constrained : Finset String
deriving DecidableEq

/-- In-flight state of one metadata's phase chain. -/
structure PState where
  sv : Bool
  errs : List String
  evs : List Ev
  reqs : Reqs

/-- Result of one metadata's phase chain: the accumulated solvable flag and
errors, the ghost trace, and whether the chain executed the `break` that
leaves the whole metas loop. -/
structure MetaOut where
  solvable : Bool
  errors : List String
  evs : List Ev
  brk : Bool
deriving DecidableEq

/-- Normal end of a metadata's chain (the loop body simply finishes, or a
`continue` skips to the next metadata). -/
def endMeta (st : PState) : MetaOut :=
  ⟨st.sv, st.errs, st.evs, false⟩

/-- `errors.append(_err)` when `_err is not None`. -/
def errListOf : Option String → List String
  | some e => [e]
  | none => []

/-- `pin_compat_req = (host_req or []) if m.is_cross else (build_req or [])`
(line 391). -/
def pinCompat (m : Metadata) (rq : Reqs) : Finset String :=
  if m.is_cross then rq.host_req else rq.build_req

/-- Test phase (lines 420-445): test requirements are the two declared test
fields plus the (already pinned) run requirements; strip self-dependencies,
substitute pin-compatible placeholders and solve with `run_constrained` as
constraints.  `pin_compat_req` is recomputed from the threaded lists; host and
build requirements do not change after line 391, so this recomputation yields
the value the code computed there. -/
def testPhase (ext : Ext) (sol : Solver) (ff : Bool) (onames : List String)
    (m : Metadata) (st : PState) (t : TimerState) :
    Except Exc (MetaOut × TimerState) :=
  let tst := m.test_requires ∪ m.test_requirements ∪ st.reqs.run_req
  if tst = ∅ then .ok (endMeta st, t)
  else
    let tst := ext.removeReqsByName tst onames
    let tst := ext.replacePinCompatible tst (pinCompat m st.reqs)
    let r := sol.solve tst st.reqs.run_constrained false [] []
    match check t with
    | .error e => .error e
    | .ok t1 =>
      let sv1 := st.sv && r.solvable
      let errs1 := st.errs ++ errListOf r.err
      let evs1 := st.evs ++ [⟨Ph.tst, r.solvable, r.err⟩]
      if !sv1 && ff then .ok (⟨sv1, errs1, evs1, true⟩, t1)
      else .ok (⟨sv1, errs1, evs1, false⟩, t1)

/-- Run phase (lines 391-418): compute `pin_compat_req`, apply the pin rules
to `run_constrained` (unconditionally), then, when the run list is non-empty,
pin/strip/substitute it and solve with `run_constrained` as constraints. -/
def runPhase (ext : Ext) (sol : Solver) (ff : Bool) (onames : List String)
    (m : Metadata) (st : PState) (t : TimerState) :
    Except Exc (MetaOut × TimerState) :=
  let rc := ext.applyPins st.reqs.run_constrained st.reqs.host_req
    st.reqs.build_req onames m
  if st.reqs.run_req = ∅ then
    testPhase ext sol ff onames m
      { st with reqs := { st.reqs with run_constrained := rc } } t
  else
    let rr := ext.applyPins st.reqs.run_req st.reqs.host_req st.reqs.build_req
      onames m
    let rr := ext.removeReqsByName rr onames
    let rr := ext.replacePinCompatible rr (pinCompat m st.reqs)
    let r := sol.solve rr rc false [] []
    match check t with
    | .error e => .error e
    | .ok t1 =>
      let sv1 := st.sv && r.solvable
      let errs1 := st.errs ++ errListOf r.err
      let evs1 := st.evs ++ [⟨Ph.runp, r.solvable, r.err⟩]
      let st1 : PState :=
        ⟨sv1, errs1, evs1, { st.reqs with run_req := rr, run_constrained := rc }⟩
      if !sv1 && ff then .ok (⟨sv1, errs1, evs1, true⟩, t1)
      else if !r.solvable then .ok (endMeta st1, t1)
      else testPhase ext sol ff onames m st1 t1

/-- Host phase (lines 358-389): when the host list is non-empty, strip
self-dependencies, solve on the target platform requesting run exports, and —
when cross-compiling — propagate the host run exports into `run_req` and
`run_constrained` exactly as lines 379-389 do. -/
def hostPhase (ext : Ext) (sol : Solver) (ff : Bool) (onames : List String)
    (m : Metadata) (st : PState) (t : TimerState) :
    Except Exc (MetaOut × TimerState) :=
  if st.reqs.host_req = ∅ then runPhase ext sol ff onames m st t
  else
    let hr := ext.removeReqsByName st.reqs.host_req onames
    let r := sol.solve hr ∅ true m.ign_runex_from m.ign_runex
    match check t with
    | .error e => .error e
    | .ok t1 =>
      let sv1 := st.sv && r.solvable
      let errs1 := st.errs ++ errListOf r.err
      let evs1 := st.evs ++ [⟨Ph.hst, r.solvable, r.err⟩]
      if !sv1 && ff then .ok (⟨sv1, errs1, evs1, true⟩, t1)
      else if !r.solvable then
        .ok (endMeta ⟨sv1, errs1, evs1, st.reqs⟩, t1)
      else
        let rq1 := { st.reqs with host_req := r.reqs }
        let rq2 :=
          if m.is_cross then
            { rq1 with
              run_req :=
                if m.noarch || m.noarch_python then rq1.run_req ∪ r.rx.noarch
                else rq1.run_req ∪ r.rx.weak ∪ r.rx.strong,
              run_constrained :=
                rq1.run_constrained ∪ r.rx.weak_constrains ∪ r.rx.strong_constrains }
          else rq1
        runPhase ext sol ff onames m ⟨sv1, errs1, evs1, rq2⟩ t1

/-- Build phase (lines 317-356): when the build list is non-empty, strip
self-dependencies, solve on the build platform requesting run exports, and on
success propagate them through `propagateBuildRx`. -/
def buildPhase (ext : Ext) (sol bsol : Solver) (ff : Bool)
    (onames : List String) (m : Metadata) (st : PState) (t : TimerState) :
    Except Exc (MetaOut × TimerState) :=
  if st.reqs.build_req = ∅ then hostPhase ext sol ff onames m st t
  else
    let br := ext.removeReqsByName st.reqs.build_req onames
    let r := bsol.solve br ∅ true m.ign_runex_from m.ign_runex
    match check t with
    | .error e => .error e
    | .ok t1 =>
      let sv1 := st.sv && r.solvable
      let errs1 := st.errs ++ errListOf r.err
      let evs1 := st.evs ++ [⟨Ph.bld, r.solvable, r.err⟩]
      if !sv1 && ff then .ok (⟨sv1, errs1, evs1, true⟩, t1)
      else if !r.solvable then
        .ok (endMeta ⟨sv1, errs1, evs1, st.reqs⟩, t1)
      else
        let p := propagateBuildRx m r.rx st.reqs.host_req st.reqs.run_req
          st.reqs.run_constrained
        hostPhase ext sol ff onames m
          ⟨sv1, errs1, evs1, ⟨r.reqs, p.1, p.2.1, p.2.2⟩⟩ t1

/-- One iteration of the `for m, _, _ in metas` loop (lines 304-445): the
loop-top checkpoint of line 305, then the four-phase chain starting from the
metadata's declared requirement lists. -/
def processMeta (ext : Ext) (sol bsol : Solver) (ff : Bool)
    (onames : List String) (m : Metadata) (sv : Bool) (t : TimerState) :
    Except Exc (MetaOut × TimerState) :=
  match check t with
  | .error e => .error e
  | .ok t1 =>
    buildPhase ext sol bsol ff onames m
      ⟨sv, [], [], ⟨m.build_req, m.host_req, m.run_req, m.run_constrained⟩⟩ t1

/-- The whole metas loop: thread the solvable flag, accumulate errors and the
ghost trace, and stop when a chain executed `break`. -/
def processMetas (ext : Ext) (sol bsol : Solver) (ff : Bool)
    (onames : List String) :
    List Metadata → Bool → List String → List Ev → TimerState →
    Except Exc ((Bool × List String × List Ev) × TimerState)
  | [], sv, errs, evs, t => .ok ((sv, errs, evs), t)
  | m :: rest, sv, errs, evs, t =>
    match processMeta ext sol bsol ff onames m sv t with
    | .error e => .error e
    | .ok (out, t1) =>
      if out.brk then .ok ((out.solvable, errs ++ out.errors, evs ++ out.evs), t1)
      else processMetas ext sol bsol ff onames rest out.solvable
        (errs ++ out.errors) (evs ++ out.evs) t1

/-- Backend dispatch of lines 285-290 (total on the two known names). -/
def chooseFactory (ext : Ext) (backend : String) : List String → String → Solver :=
  if backend = "rattler" then ext.rattlerFactory else ext.mambaFactory

/-- `_is_recipe_solvable_on_platform` (lines 189-454): compute the channel
list, run the checkpoints of lines 231-299, render the recipe (the
conda-build variant merge with its retry, the rendering itself and the output
suppression are the external renderer collaborator), build the two solver
instances through the memoized factory, then run the metas loop.  Returns
`(solvable, errors)`; the ghost trace is dropped here as the caller never
sees it. -/
def platformCheck (ext : Ext) (backend : String) (cbcFname : String)
    (cfg : Option (List String)) (platform arch : String)
    (buildPA : String × String) (addl : List String) (ff : Bool)
    (t : TimerState) : Except Exc ((Bool × List String) × TimerState) :=
  let channels := computeChannelSources cfg platform addl
  match check t with
  | .error e => .error e
  | .ok t1 =>
  match check t1 with -- line 239, first variant-merge attempt
  | .error e => .error e
  | .ok t2 =>
  match check t2 with -- line 239, second variant-merge attempt
  | .error e => .error e
  | .ok t3 =>
  match check t3 with -- line 259
  | .error e => .error e
  | .ok t4 =>
  let metas := ext.render cbcFname channels platform arch
  match check t4 with -- line 274
  | .error e => .error e
  | .ok t5 =>
  if backend ≠ "rattler" ∧ backend ≠ "mamba" then .error .valueError
  else
    let factory := chooseFactory ext backend
    let sol := factory channels (platform ++ "-" ++ arch)
    match check t5 with -- line 293
    | .error e => .error e
    | .ok t6 =>
    let bsol := factory channels (buildPA.1 ++ "-" ++ buildPA.2)
    match check t6 with -- line 299
    | .error e => .error e
    | .ok t7 =>
    let onames := metas.map Metadata.name
    match processMetas ext sol bsol ff onames metas true [] [] t7 with
    | .error e => .error e
    | .ok ((solvable, errors, _), t8) => .ok ((solvable, errors), t8)

/-- The feedstock directory as the aggregator sees it: the `.ci_support`
config basenames found by the glob, whether `recipe/meta.yaml` exists, and
each config file's declared `channel_sources` entry. -/
structure Env where
  cbcFiles : List String
  metaYamlExists : Bool
  cfgOf : String → Option (List String)

/-- Error message of lines 126-131. -/
def noCbcMsg : String :=
  "No `.ci_support/*.yaml` files found! This can happen when a rerender " ++
  "results in no builds for a recipe (e.g., a recipe is python 2.7 only). " ++
  "This attempted migration is being reported as not solvable."

/-- Error message of lines 136-139. -/
def noMetaMsg : String :=
  "No `recipe/meta.yaml` file found! This issue is quite weird and " ++
  "someone should investigate!"

/-- The per-config loop of `_is_recipe_solvable` (lines 146-184): checkpoint,
decompose the basename, look up the build platform, check the config, AND the
solvable flag, prefix and collect the errors, record the per-config entry,
and — after recording it — break when fail-fast and no longer solvable.
`bp` is the `build_platform` mapping with its platform-arch values already
decomposed at the underscore. -/
def aggLoop (ext : Ext) (env : Env) (backend : String)
    (bp : String → Option (String × String)) (addl : List String) (ff : Bool) :
    List String → Bool → List String → List (String × Bool) → TimerState →
    Except Exc ((Bool × List String × List (String × Bool)) × TimerState)
  | [], sv, errs, sbc, t => .ok ((sv, errs, sbc), t)
  | c :: rest, sv, errs, sbc, t =>
    match check t with
    | .error e => .error e
    | .ok t1 =>
      match parsePlatformArch c with
      | none => .error .indexError
      | some (platform, arch) =>
        let bpa := (bp (platform ++ "_" ++ arch)).getD (platform, arch)
        match platformCheck ext backend c (env.cfgOf c) platform arch bpa addl
          ff t1 with
        | .error e => .error e
        | .ok ((s, perrs), t2) =>
          let sv' := sv && s
          let name := stripExt c
          let errs' := errs ++ perrs.map (fun e => name ++ ": " ++ e)
          let sbc' := sbc ++ [(name, s)]
          if !sv' && ff then .ok ((sv', errs', sbc'), t2)
          else aggLoop ext env backend bp addl ff rest sv' errs' sbc' t2

/-- `_is_recipe_solvable` (lines 103-186): extend the additional channels with
the virtual-package repodata, checkpoint (line 120), report the two fatal
structural errors, otherwise iterate the sorted configs.  The scoped
`CONDA_OVERRIDE_GLIBC` override only affects the external solver's
environment. -/
def isRecipeSolvableInner (ext : Ext) (env : Env)
    (addl0 : Option (List String)) (bp : String → Option (String × String))
    (backend : String) (ff : Bool) (t : TimerState) :
    Except Exc ((Bool × List String × List (String × Bool)) × TimerState) :=
  let addl := addl0.getD [] ++ [ext.vpr]
  match check t with
  | .error e => .error e
  | .ok t1 =>
    let cbcs := sortStrings env.cbcFiles
    if cbcs.length = 0 then .ok ((false, [noCbcMsg], []), t1)
    else if !env.metaYamlExists then .ok ((false, [noMetaMsg], []), t1)
    else aggLoop ext env backend bp addl ff cbcs true [] [] t1

/-- `is_recipe_solvable` (lines 34-100): build the timer from the budget
(`6e5` when the caller passes `None`), run the check, and catch exactly the
timeout signal, converting it to the fail-open result `(True, [], {})`. -/
def is_recipe_solvable (ext : Ext) (env : Env)
    (addl0 : Option (List String)) (bp : String → Option (String × String))
    (backend : String) (ff : Bool) (timeout : Option Nat) (clock : List Nat) :
    Except Exc (Bool × List String × List (String × Bool)) :=
  match isRecipeSolvableInner ext env addl0 bp backend ff
    ⟨timeout.getD 600000, clock⟩ with
  | .ok (r, _) => .ok r
  | .error .timeout => .ok (true, [], [])
  | .error e => .error e

/-! ## Pure characterization of the phase chain

`metaOk` recomputes, without the timer and the accumulator plumbing, whether
every solve call the chain makes for one metadata succeeds.  The lemmas below
show it is exactly the solvable flag the chain produces (design §4.3's "final
per-configuration solvability = logical AND across every Metadata object's
every phase"). -/

/-- Whether the test phase's solve (if any) succeeds. -/
def testOk (ext : Ext) (sol : Solver) (onames : List String) (m : Metadata)
    (rq : Reqs) : Bool :=
  let tst := m.test_requires ∪ m.test_requirements ∪ rq.run_req
  if tst = ∅ then true
  else
    let tst := ext.removeReqsByName tst onames
    let tst := ext.replacePinCompatible tst (pinCompat m rq)
    (sol.solve tst rq.run_constrained false [] []).solvable

/-- Whether the run phase's solve (if any) and everything after it succeed. -/
def runOk (ext : Ext) (sol : Solver) (onames : List String) (m : Metadata)
    (rq : Reqs) : Bool :=
  let rc := ext.applyPins rq.run_constrained rq.host_req rq.build_req onames m
  if rq.run_req = ∅ then
    testOk ext sol onames m { rq with run_constrained := rc }
  else
    let rr := ext.applyPins rq.run_req rq.host_req rq.build_req onames m
    let rr := ext.removeReqsByName rr onames
    let rr := ext.replacePinCompatible rr (pinCompat m rq)
    let r := sol.solve rr rc false [] []
    r.solvable &&
      testOk ext sol onames m { rq with run_req := rr, run_constrained := rc }

/-- Whether the host phase's solve (if any) and everything after it succeed. -/
def hostOk (ext : Ext) (sol : Solver) (onames : List String) (m : Metadata)
    (rq : Reqs) : Bool :=
  if rq.host_req = ∅ then runOk ext sol onames m rq
  else
    let hr := ext.removeReqsByName rq.host_req onames
    let r := sol.solve hr ∅ true m.ign_runex_from m.ign_runex
    r.solvable &&
      (let rq1 := { rq with host_req := r.reqs }
       let rq2 :=
         if m.is_cross then
           { rq1 with
             run_req :=
               if m.noarch || m.noarch_python then rq1.run_req ∪ r.rx.noarch
               else rq1.run_req ∪ r.rx.weak ∪ r.rx.strong,
             run_constrained :=
               rq1.run_constrained ∪ r.rx.weak_constrains ∪ r.rx.strong_constrains }
         else rq1
       runOk ext sol onames m rq2)

/-- Whether the build phase's solve (if any) and everything after it succeed. -/
def buildOk (ext : Ext) (sol bsol : Solver) (onames : List String)
    (m : Metadata) (rq : Reqs) : Bool :=
  if rq.build_req = ∅ then hostOk ext sol onames m rq
  else
    let br := ext.removeReqsByName rq.build_req onames
    let r := bsol.solve br ∅ true m.ign_runex_from m.ign_runex
    r.solvable &&
      (let p := propagateBuildRx m r.rx rq.host_req rq.run_req rq.run_constrained
       hostOk ext sol onames m ⟨r.reqs, p.1, p.2.1, p.2.2⟩)

/-- Whether every solve call made for one metadata succeeds. -/
def metaOk (ext : Ext) (sol bsol : Solver) (onames : List String)
    (m : Metadata) : Bool :=
  buildOk ext sol bsol onames m
    ⟨m.build_req, m.host_req, m.run_req, m.run_constrained⟩

/-- Whether one configuration is solvable: the AND, over every rendered
metadata object, of all its phase solves succeeding.  This is the pure value
`platformCheck` computes (shown by `platformCheck_char`). -/
def configSolvable (ext : Ext) (backend : String) (cbcFname : String)
    (cfg : Option (List String)) (platform arch : String)
    (buildPA : String × String) (addl : List String) : Bool :=
  let channels := computeChannelSources cfg platform addl
  let metas := ext.render cbcFname channels platform arch
  let onames := metas.map Metadata.name
  let factory := chooseFactory ext backend
  let sol := factory channels (platform ++ "-" ++ arch)
  let bsol := factory channels (buildPA.1 ++ "-" ++ buildPA.2)
  metas.all (fun m => metaOk ext sol bsol onames m)

/-- The solvable value `aggLoop` records for one config file (the per-config
boolean the aggregator puts into `solvable_by_cbc`). -/
def aggEntrySolvable (ext : Ext) (env : Env) (backend : String)
    (bp : String → Option (String × String)) (addl : List String)
    (c : String) : Bool :=
  match parsePlatformArch c with
  | some (platform, arch) =>
    configSolvable ext backend c (env.cfgOf c) platform arch
      ((bp (platform ++ "_" ++ arch)).getD (platform, arch)) addl
  | none => true

/-! ## Concrete instances used to evaluate the development on closed inputs -/

/-- Empty run-export record. -/
def rx0 : RunExports := ⟨∅, ∅, ∅, ∅, ∅⟩

/-- Run exports with one distinct entry per bucket. -/
def rxW : RunExports := ⟨{"s"}, {"w"}, {"n"}, {"sc"}, {"wc"}⟩

/-- A cross-compiled, non-noarch metadata with one build requirement. -/
def mCross : Metadata :=
  { name := "pkg", is_cross := true, noarch := false, noarch_python := false,
    build_is_host := false, build_req := {"x"}, host_req := ∅, run_req := ∅,
    run_constrained := ∅, test_requires := ∅, test_requirements := ∅,
    ign_runex := [], ign_runex_from := [] }

/-- A native noarch metadata whose build platform is not the host platform:
the triple `(is_cross, noarch, build_is_host) = (false, true, false)`. -/
def mNativeNoarch : Metadata :=
  { name := "pkg", is_cross := false, noarch := true, noarch_python := false,
    build_is_host := false, build_req := {"x"}, host_req := ∅, run_req := ∅,
    run_constrained := ∅, test_requires := ∅, test_requirements := ∅,
    ign_runex := [], ign_runex_from := [] }

/-- A native, non-noarch metadata whose build platform is not the host
platform: the triple `(false, false, false)`. -/
def mNativeFFF : Metadata :=
  { name := "pkg", is_cross := false, noarch := false, noarch_python := false,
    build_is_host := false, build_req := {"x"}, host_req := ∅, run_req := ∅,
    run_constrained := ∅, test_requires := ∅, test_requirements := ∅,
    ign_runex := [], ign_runex_from := [] }

/-- A solver that reports every requirement set unsolvable. -/
def failSolver : Solver := ⟨fun _ _ _ _ _ => ⟨false, some "conflict", ∅, rx0⟩⟩

/-- Concrete external collaborators. -/
def extW : Ext :=
  { render := fun _ _ _ _ => [mCross],
    rattlerFactory := fun _ _ => failSolver,
    mambaFactory := fun _ _ => failSolver,
    removeReqsByName := fun r _ => r,
    applyPins := fun rc _ _ _ _ => rc,
    replacePinCompatible := fun r _ => r,
    vpr := "file://vpkg" }

/-- A feedstock with one well-formed config file. -/
def envW : Env := ⟨["linux_64.yaml"], true, fun _ => none⟩

/-- A feedstock with no config files. -/
def envNoCbc : Env := ⟨[], true, fun _ => none⟩

/-- A feedstock with a config file but no `recipe/meta.yaml`. -/
def envNoMeta : Env := ⟨["linux_64.yaml"], false, fun _ => none⟩

/-- A feedstock whose only config basename has no underscore. -/
def envNoUnderscore : Env := ⟨["linux.yaml"], true, fun _ => none⟩

/-- A feedstock with two config files (listed unsorted). -/
def envTwo : Env := ⟨["b_64.yaml", "a_64.yaml"], true, fun _ => none⟩

/-- An inert timer: large budget, no clock readings. -/
def tW : TimerState := ⟨600, []⟩

/-- The chain output for `mCross` under `failSolver` with fail-fast set. -/
def outW : MetaOut :=
  ⟨false, ["conflict"], [⟨Ph.bld, false, some "conflict"⟩], true⟩

/-- The failing build event of `outW`. -/
def evW : Ev := ⟨Ph.bld, false, some "conflict"⟩


theorem testPhase_char (ext : Ext) (sol : Solver) (ff : Bool)
    (onames : List String) (m : Metadata) (st : PState) (t t' : TimerState)
    (out : MetaOut)
    (h : testPhase ext sol ff onames m st t = .ok (out, t')) :
    out.solvable = (st.sv && testOk ext sol onames m st.reqs) ∧
      (out.brk = true → out.solvable = false) := by
  obtain ⟨sv, errs, evs, rq⟩ := st
  simp only [testPhase] at h
  split at h
  · cases h
    simp_all [endMeta, testOk]
  · split at h
    · cases h
    · split at h <;> cases h <;> simp_all [testOk] <;>
        cases sv <;> simp_all

theorem runPhase_char (ext : Ext) (sol : Solver) (ff : Bool)
    (onames : List String) (m : Metadata) (st : PState) (t t' : TimerState)
    (out : MetaOut)
    (h : runPhase ext sol ff onames m st t = .ok (out, t')) :
    out.solvable = (st.sv && runOk ext sol onames m st.reqs) ∧
      (out.brk = true → out.solvable = false) := by
  obtain ⟨sv, errs, evs, rq⟩ := st
  simp only [runPhase] at h
  split at h
  next hemp =>
    obtain ⟨hc1, hc2⟩ := testPhase_char _ _ _ _ _ _ _ _ _ h
    refine ⟨?_, hc2⟩
    rw [hc1]
    simp [runOk, hemp]
  next hemp =>
    split at h
    · cases h
    · split at h
      next hgrd =>
        simp only [Bool.and_eq_true, Bool.not_eq_true'] at hgrd
        obtain ⟨hsf, hfft⟩ := hgrd
        cases h
        refine ⟨?_, fun _ => hsf⟩
        simp only [runOk, hemp]
        cases sv <;> simp_all
      next hgrd =>
        split at h
        next hns =>
          cases h
          refine ⟨?_, fun hb => by simp [endMeta] at hb⟩
          simp_all [runOk, endMeta, hemp]
        next hns =>
          obtain ⟨hc1, hc2⟩ := testPhase_char _ _ _ _ _ _ _ _ _ h
          refine ⟨?_, hc2⟩
          rw [hc1]
          simp_all [runOk, hemp, Bool.and_assoc]

theorem hostPhase_char (ext : Ext) (sol : Solver) (ff : Bool)
    (onames : List String) (m : Metadata) (st : PState) (t t' : TimerState)
    (out : MetaOut)
    (h : hostPhase ext sol ff onames m st t = .ok (out, t')) :
    out.solvable = (st.sv && hostOk ext sol onames m st.reqs) ∧
      (out.brk = true → out.solvable = false) := by
  obtain ⟨sv, errs, evs, rq⟩ := st
  simp only [hostPhase] at h
  split at h
  next hemp =>
    obtain ⟨hc1, hc2⟩ := runPhase_char _ _ _ _ _ _ _ _ _ h
    refine ⟨?_, hc2⟩
    rw [hc1]
    simp [hostOk, hemp]
  next hemp =>
    split at h
    · cases h
    · split at h
      next hgrd =>
        simp only [Bool.and_eq_true, Bool.not_eq_true'] at hgrd
        obtain ⟨hsf, hfft⟩ := hgrd
        cases h
        refine ⟨?_, fun _ => hsf⟩
        simp only [hostOk, hemp]
        cases sv <;> simp_all
      next hgrd =>
        split at h
        next hns =>
          cases h
          refine ⟨?_, fun hb => by simp [endMeta] at hb⟩
          simp_all [hostOk, endMeta, hemp]
        next hns =>
          obtain ⟨hc1, hc2⟩ := runPhase_char _ _ _ _ _ _ _ _ _ h
          refine ⟨?_, hc2⟩
          rw [hc1]
          simp_all [hostOk, hemp, Bool.and_assoc]

theorem buildPhase_char (ext : Ext) (sol bsol : Solver) (ff : Bool)
    (onames : List String) (m : Metadata) (st : PState) (t t' : TimerState)
    (out : MetaOut)
    (h : buildPhase ext sol bsol ff onames m st t = .ok (out, t')) :
    out.solvable = (st.sv && buildOk ext sol bsol onames m st.reqs) ∧
      (out.brk = true → out.solvable = false) := by
  obtain ⟨sv, errs, evs, rq⟩ := st
  simp only [buildPhase] at h
  split at h
  next hemp =>
    obtain ⟨hc1, hc2⟩ := hostPhase_char _ _ _ _ _ _ _ _ _ h
    refine ⟨?_, hc2⟩
    rw [hc1]
    simp [buildOk, hemp]
  next hemp =>
    split at h
    · cases h
    · split at h
      next hgrd =>
        simp only [Bool.and_eq_true, Bool.not_eq_true'] at hgrd
        obtain ⟨hsf, hfft⟩ := hgrd
        cases h
        refine ⟨?_, fun _ => hsf⟩
        simp only [buildOk, hemp]
        cases sv <;> simp_all
      next hgrd =>
        split at h
        next hns =>
          cases h
          refine ⟨?_, fun hb => by simp [endMeta] at hb⟩
          simp_all [buildOk, endMeta, hemp]
        next hns =>
          obtain ⟨hc1, hc2⟩ := hostPhase_char _ _ _ _ _ _ _ _ _ h
          refine ⟨?_, hc2⟩
          rw [hc1]
          simp_all [buildOk, hemp, Bool.and_assoc]

theorem processMeta_char (ext : Ext) (sol bsol : Solver) (ff : Bool)
    (onames : List String) (m : Metadata) (sv : Bool) (t t' : TimerState)
    (out : MetaOut)
    (h : processMeta ext sol bsol ff onames m sv t = .ok (out, t')) :
    out.solvable = (sv && metaOk ext sol bsol onames m) ∧
      (out.brk = true → out.solvable = false) := by
  simp only [processMeta] at h
  split at h
  · cases h
  · exact buildPhase_char _ _ _ _ _ _ _ _ _ _ h

theorem processMetas_char (ext : Ext) (sol bsol : Solver) (ff : Bool)
    (onames : List String) (ms : List Metadata) (sv : Bool)
    (errs : List String) (evs : List Ev) (t t' : TimerState) (fsv : Bool)
    (ferrs : List String) (fevs : List Ev)
    (h : processMetas ext sol bsol ff onames ms sv errs evs t =
      .ok ((fsv, ferrs, fevs), t')) :
    fsv = (sv && ms.all (fun m => metaOk ext sol bsol onames m)) := by
  induction ms generalizing sv errs evs t with
  | nil =>
    cases h
    simp
  | cons m rest ih =>
    simp only [processMetas] at h
    split at h
    · cases h
    · next out t1 heq =>
      obtain ⟨hsol, hbrk⟩ := processMeta_char _ _ _ _ _ _ _ _ _ _ heq
      split at h
      · cases h
        next hb =>
        have : out.solvable = false := hbrk hb
        simp_all [Bool.and_assoc]
      · have := ih _ _ _ _ h
        simp_all [Bool.and_assoc]

theorem check_noclock (t : TimerState) (h : t.clock = []) : check t = .ok t := by
  simp [check, h]

theorem testPhase_total (ext : Ext) (sol : Solver) (ff : Bool)
    (onames : List String) (m : Metadata) (st : PState) (t : TimerState)
    (h : t.clock = []) :
    ∃ out, testPhase ext sol ff onames m st t = .ok (out, t) := by
  simp only [testPhase, check_noclock t h]
  split
  · exact ⟨_, rfl⟩
  · split <;> exact ⟨_, rfl⟩

theorem runPhase_total (ext : Ext) (sol : Solver) (ff : Bool)
    (onames : List String) (m : Metadata) (st : PState) (t : TimerState)
    (h : t.clock = []) :
    ∃ out, runPhase ext sol ff onames m st t = .ok (out, t) := by
  simp only [runPhase, check_noclock t h]
  split
  · exact testPhase_total _ _ _ _ _ _ _ h
  · split
    · exact ⟨_, rfl⟩
    · split
      · exact ⟨_, rfl⟩
      · exact testPhase_total _ _ _ _ _ _ _ h

theorem hostPhase_total (ext : Ext) (sol : Solver) (ff : Bool)
    (onames : List String) (m : Metadata) (st : PState) (t : TimerState)
    (h : t.clock = []) :
    ∃ out, hostPhase ext sol ff onames m st t = .ok (out, t) := by
  simp only [hostPhase, check_noclock t h]
  split
  · exact runPhase_total _ _ _ _ _ _ _ h
  · split
    · exact ⟨_, rfl⟩
    · split
      · exact ⟨_, rfl⟩
      · exact runPhase_total _ _ _ _ _ _ _ h

theorem buildPhase_total (ext : Ext) (sol bsol : Solver) (ff : Bool)
    (onames : List String) (m : Metadata) (st : PState) (t : TimerState)
    (h : t.clock = []) :
    ∃ out, buildPhase ext sol bsol ff onames m st t = .ok (out, t) := by
  simp only [buildPhase, check_noclock t h]
  split
  · exact hostPhase_total _ _ _ _ _ _ _ h
  · split
    · exact ⟨_, rfl⟩
    · split
      · exact ⟨_, rfl⟩
      · exact hostPhase_total _ _ _ _ _ _ _ h

theorem processMeta_total (ext : Ext) (sol bsol : Solver) (ff : Bool)
    (onames : List String) (m : Metadata) (sv : Bool) (t : TimerState)
    (h : t.clock = []) :
    ∃ out, processMeta ext sol bsol ff onames m sv t = .ok (out, t) := by
  simp only [processMeta, check_noclock t h]
  exact buildPhase_total _ _ _ _ _ _ _ _ h

theorem processMetas_total (ext : Ext) (sol bsol : Solver) (ff : Bool)
    (onames : List String) (ms : List Metadata) (sv : Bool)
    (errs : List String) (evs : List Ev) (t : TimerState)
    (h : t.clock = []) :
    ∃ res, processMetas ext sol bsol ff onames ms sv errs evs t =
      .ok (res, t) := by
  induction ms generalizing sv errs evs with
  | nil => exact ⟨_, rfl⟩
  | cons m rest ih =>
    obtain ⟨out, hout⟩ := processMeta_total ext sol bsol ff onames m sv t h
    simp only [processMetas, hout]
    split
    · exact ⟨_, rfl⟩
    · exact ih _ _ _

/-! ## Failure-path characterization (claim C5)

If a phase chain completes and its ghost trace contains a failing solve
event, then: the accumulated solvable flag is false, the reported error
string (when present) was recorded, the failing event is the last event the
chain emitted (the remaining phases of this metadata were skipped), and the
chain executed `break` exactly when `fail_fast` was set. -/

theorem testPhase_fail (ext : Ext) (sol : Solver) (ff : Bool)
    (onames : List String) (m : Metadata) (st : PState) (t t' : TimerState)
    (out : MetaOut)
    (h : testPhase ext sol ff onames m st t = .ok (out, t'))
    (hok : ∀ x ∈ st.evs, x.ok = true) :
    ∀ ev ∈ out.evs, ev.ok = false →
      out.solvable = false ∧ (∀ e, ev.err = some e → e ∈ out.errors) ∧
      out.evs.getLast? = some ev ∧ out.brk = ff := by
  obtain ⟨sv, errs, evs, rq⟩ := st
  simp only [testPhase] at h
  split at h
  · cases h
    intro ev hev hfev
    exact absurd (hok ev hev) (by simp [hfev])
  · split at h
    · cases h
    · split at h <;> cases h <;> intro ev hev hfev <;>
        rcases List.mem_append.1 hev with hin | hin
      · exact absurd (hok ev hin) (by simp [hfev])
      · next hgrd _ =>
        rcases List.mem_singleton.1 hin with rfl
        simp only [Ev.ok] at hfev
        simp only [Bool.and_eq_true, Bool.not_eq_true'] at hgrd
        refine ⟨by simp only [hfev, Bool.and_false], ?_, by simp, hgrd.2.symm⟩
        intro e he
        simp only [Ev.err] at he
        simp only [he, errListOf]
        exact List.mem_append_right _ (by simp)
      · exact absurd (hok ev hin) (by simp [hfev])
      · next hgrd _ =>
        rcases List.mem_singleton.1 hin with rfl
        simp only [Ev.ok] at hfev
        have hff : ff = false := by
          revert hgrd
          simp only [hfev, Bool.and_false, Bool.not_false, Bool.true_and]
          cases ff <;> simp
        refine ⟨by simp only [hfev, Bool.and_false], ?_, by simp, by simp [hff]⟩
        intro e he
        simp only [Ev.err] at he
        simp only [he, errListOf]
        exact List.mem_append_right _ (by simp)

theorem runPhase_fail (ext : Ext) (sol : Solver) (ff : Bool)
    (onames : List String) (m : Metadata) (st : PState) (t t' : TimerState)
    (out : MetaOut)
    (h : runPhase ext sol ff onames m st t = .ok (out, t'))
    (hok : ∀ x ∈ st.evs, x.ok = true) :
    ∀ ev ∈ out.evs, ev.ok = false →
      out.solvable = false ∧ (∀ e, ev.err = some e → e ∈ out.errors) ∧
      out.evs.getLast? = some ev ∧ out.brk = ff := by
  obtain ⟨sv, errs, evs, rq⟩ := st
  simp only [runPhase] at h
  split at h
  next hemp => exact testPhase_fail _ _ _ _ _ _ _ _ _ h hok
  next hemp =>
    split at h
    · cases h
    · split at h
      next hgrd =>
        cases h
        intro ev hev hfev
        rcases List.mem_append.1 hev with hin | hin
        · exact absurd (hok ev hin) (by simp [hfev])
        · rcases List.mem_singleton.1 hin with rfl
          simp only [Ev.ok] at hfev
          simp only [Bool.and_eq_true, Bool.not_eq_true'] at hgrd
          refine ⟨by simp only [hfev, Bool.and_false], ?_, by simp, hgrd.2.symm⟩
          intro e he
          simp only [Ev.err] at he
          simp only [he, errListOf]
          exact List.mem_append_right _ (by simp)
      next hgrd =>
        split at h
        next hns =>
          cases h
          intro ev hev hfev
          rcases List.mem_append.1 hev with hin | hin
          · exact absurd (hok ev hin) (by simp [hfev])
          · rcases List.mem_singleton.1 hin with rfl
            simp only [Bool.not_eq_eq_eq_not, Bool.not_true] at hns
            have hff : ff = false := by
              revert hgrd
              simp only [hns, Bool.and_false, Bool.not_false, Bool.true_and]
              cases ff <;> simp
            refine ⟨by simp only [endMeta, hns, Bool.and_false], ?_,
              by simp [endMeta], by simp [endMeta, hff]⟩
            intro e he
            simp only [Ev.err] at he
            simp only [endMeta, he, errListOf]
            exact List.mem_append_right _ (by simp)
        next hns =>
          refine testPhase_fail _ _ _ _ _ _ _ _ _ h ?_
          intro x hx
          rcases List.mem_append.1 hx with hin | hin
          · exact hok x hin
          · rcases List.mem_singleton.1 hin with rfl
            simpa using hns

theorem hostPhase_fail (ext : Ext) (sol : Solver) (ff : Bool)
    (onames : List String) (m : Metadata) (st : PState) (t t' : TimerState)
    (out : MetaOut)
    (h : hostPhase ext sol ff onames m st t = .ok (out, t'))
    (hok : ∀ x ∈ st.evs, x.ok = true) :
    ∀ ev ∈ out.evs, ev.ok = false →
      out.solvable = false ∧ (∀ e, ev.err = some e → e ∈ out.errors) ∧
      out.evs.getLast? = some ev ∧ out.brk = ff := by
  obtain ⟨sv, errs, evs, rq⟩ := st
  simp only [hostPhase] at h
  split at h
  next hemp => exact runPhase_fail _ _ _ _ _ _ _ _ _ h hok
  next hemp =>
    split at h
    · cases h
    · split at h
      next hgrd =>
        cases h
        intro ev hev hfev
        rcases List.mem_append.1 hev with hin | hin
        · exact absurd (hok ev hin) (by simp [hfev])
        · rcases List.mem_singleton.1 hin with rfl
          simp only [Ev.ok] at hfev
          simp only [Bool.and_eq_true, Bool.not_eq_true'] at hgrd
          refine ⟨by simp only [hfev, Bool.and_false], ?_, by simp, hgrd.2.symm⟩
          intro e he
          simp only [Ev.err] at he
          simp only [he, errListOf]
          exact List.mem_append_right _ (by simp)
      next hgrd =>
        split at h
        next hns =>
          cases h
          intro ev hev hfev
          rcases List.mem_append.1 hev with hin | hin
          · exact absurd (hok ev hin) (by simp [hfev])
          · rcases List.mem_singleton.1 hin with rfl
            simp only [Bool.not_eq_eq_eq_not, Bool.not_true] at hns
            have hff : ff = false := by
              revert hgrd
              simp only [hns, Bool.and_false, Bool.not_false, Bool.true_and]
              cases ff <;> simp
            refine ⟨by simp only [endMeta, hns, Bool.and_false], ?_,
              by simp [endMeta], by simp [endMeta, hff]⟩
            intro e he
            simp only [Ev.err] at he
            simp only [endMeta, he, errListOf]
            exact List.mem_append_right _ (by simp)
        next hns =>
          refine runPhase_fail _ _ _ _ _ _ _ _ _ h ?_
          intro x hx
          rcases List.mem_append.1 hx with hin | hin
          · exact hok x hin
          · rcases List.mem_singleton.1 hin with rfl
            simpa using hns

theorem buildPhase_fail (ext : Ext) (sol bsol : Solver) (ff : Bool)
    (onames : List String) (m : Metadata) (st : PState) (t t' : TimerState)
    (out : MetaOut)
    (h : buildPhase ext sol bsol ff onames m st t = .ok (out, t'))
    (hok : ∀ x ∈ st.evs, x.ok = true) :
    ∀ ev ∈ out.evs, ev.ok = false →
      out.solvable = false ∧ (∀ e, ev.err = some e → e ∈ out.errors) ∧
      out.evs.getLast? = some ev ∧ out.brk = ff := by
  obtain ⟨sv, errs, evs, rq⟩ := st
  simp only [buildPhase] at h
  split at h
  next hemp => exact hostPhase_fail _ _ _ _ _ _ _ _ _ h hok
  next hemp =>
    split at h
    · cases h
    · split at h
      next hgrd =>
        cases h
        intro ev hev hfev
        rcases List.mem_append.1 hev with hin | hin
        · exact absurd (hok ev hin) (by simp [hfev])
        · rcases List.mem_singleton.1 hin with rfl
          simp only [Ev.ok] at hfev
          simp only [Bool.and_eq_true, Bool.not_eq_true'] at hgrd
          refine ⟨by simp only [hfev, Bool.and_false], ?_, by simp, hgrd.2.symm⟩
          intro e he
          simp only [Ev.err] at he
          simp only [he, errListOf]
          exact List.mem_append_right _ (by simp)
      next hgrd =>
        split at h
        next hns =>
          cases h
          intro ev hev hfev
          rcases List.mem_append.1 hev with hin | hin
          · exact absurd (hok ev hin) (by simp [hfev])
          · rcases List.mem_singleton.1 hin with rfl
            simp only [Bool.not_eq_eq_eq_not, Bool.not_true] at hns
            have hff : ff = false := by
              revert hgrd
              simp only [hns, Bool.and_false, Bool.not_false, Bool.true_and]
              cases ff <;> simp
            refine ⟨by simp only [endMeta, hns, Bool.and_false], ?_,
              by simp [endMeta], by simp [endMeta, hff]⟩
            intro e he
            simp only [Ev.err] at he
            simp only [endMeta, he, errListOf]
            exact List.mem_append_right _ (by simp)
        next hns =>
          refine hostPhase_fail _ _ _ _ _ _ _ _ _ h ?_
          intro x hx
          rcases List.mem_append.1 hx with hin | hin
          · exact hok x hin
          · rcases List.mem_singleton.1 hin with rfl
            simpa using hns

theorem processMeta_fail (ext : Ext) (sol bsol : Solver) (ff : Bool)
    (onames : List String) (m : Metadata) (sv : Bool) (t t' : TimerState)
    (out : MetaOut)
    (h : processMeta ext sol bsol ff onames m sv t = .ok (out, t')) :
    ∀ ev ∈ out.evs, ev.ok = false →
      out.solvable = false ∧ (∀ e, ev.err = some e → e ∈ out.errors) ∧
      out.evs.getLast? = some ev ∧ out.brk = ff := by
  simp only [processMeta] at h
  split at h
  · cases h
  · exact buildPhase_fail _ _ _ _ _ _ _ _ _ _ h (by simp)

/-! ## Whole-configuration characterization (claims C4, C6) -/

theorem platformCheck_char (ext : Ext) (backend : String) (cbcFname : String)
    (cfg : Option (List String)) (platform arch : String)
    (buildPA : String × String) (addl : List String) (ff : Bool)
    (t : TimerState) (hclk : t.clock = [])
    (hbk : backend = "rattler" ∨ backend = "mamba") :
    ∃ errs, platformCheck ext backend cbcFname cfg platform arch buildPA addl
      ff t =
      .ok ((configSolvable ext backend cbcFname cfg platform arch buildPA addl,
        errs), t) := by
  have hbk' : ¬(backend ≠ "rattler" ∧ backend ≠ "mamba") := by
    rcases hbk with h | h <;> simp [h]
  obtain ⟨⟨fsv, ferrs, fevs⟩, hres⟩ := processMetas_total ext
    (chooseFactory ext backend (computeChannelSources cfg platform addl)
      (platform ++ "-" ++ arch))
    (chooseFactory ext backend (computeChannelSources cfg platform addl)
      (buildPA.1 ++ "-" ++ buildPA.2))
    ff
    ((ext.render cbcFname (computeChannelSources cfg platform addl) platform
      arch).map Metadata.name)
    (ext.render cbcFname (computeChannelSources cfg platform addl) platform
      arch) true [] [] t hclk
  have hval := processMetas_char _ _ _ _ _ _ _ _ _ _ _ _ _ _ hres
  refine ⟨ferrs, ?_⟩
  unfold platformCheck
  simp only [check_noclock t hclk, hbk', if_false, hres]
  simp [configSolvable, hval]

theorem aggLoop_false_char (ext : Ext) (env : Env) (backend : String)
    (bp : String → Option (String × String)) (addl : List String)
    (cbcs : List String) (sv : Bool) (errs : List String)
    (sbc : List (String × Bool)) (t : TimerState) (hclk : t.clock = [])
    (hbk : backend = "rattler" ∨ backend = "mamba")
    (hparse : ∀ c ∈ cbcs, (parsePlatformArch c).isSome) :
    ∃ errs', aggLoop ext env backend bp addl false cbcs sv errs sbc t =
      .ok ((sv && cbcs.all (aggEntrySolvable ext env backend bp addl),
        errs',
        sbc ++ cbcs.map
          (fun c => (stripExt c, aggEntrySolvable ext env backend bp addl c))),
        t) := by
  induction cbcs generalizing sv errs sbc with
  | nil => exact ⟨errs, by simp [aggLoop]⟩
  | cons c rest ih =>
    obtain ⟨⟨p, a⟩, hp⟩ := Option.isSome_iff_exists.1 (hparse c (by simp))
    obtain ⟨perrs, hpc⟩ := platformCheck_char ext backend c (env.cfgOf c) p a
      ((bp (p ++ "_" ++ a)).getD (p, a)) addl false t hclk hbk
    obtain ⟨errs', hrec⟩ := ih
      (sv && configSolvable ext backend c (env.cfgOf c) p a
        ((bp (p ++ "_" ++ a)).getD (p, a)) addl)
      (errs ++ perrs.map (fun e => stripExt c ++ ": " ++ e))
      (sbc ++ [(stripExt c,
        configSolvable ext backend c (env.cfgOf c) p a
          ((bp (p ++ "_" ++ a)).getD (p, a)) addl)])
      (fun c hc => hparse c (List.mem_cons_of_mem _ hc))
    refine ⟨errs', ?_⟩
    simp only [aggLoop, check_noclock t hclk, hp, hpc, Bool.and_false,
      Bool.false_and, if_false, hrec]
    simp [aggEntrySolvable, hp, Bool.and_assoc]

theorem aggLoop_true_fst (ext : Ext) (env : Env) (backend : String)
    (bp : String → Option (String × String)) (addl : List String)
    (c0 : String) (rest : List String) (errs : List String)
    (sbc : List (String × Bool)) (t : TimerState) (hclk : t.clock = [])
    (hbk : backend = "rattler" ∨ backend = "mamba")
    (hp : (parsePlatformArch c0).isSome)
    (huns : aggEntrySolvable ext env backend bp addl c0 = false) :
    ∃ errs', aggLoop ext env backend bp addl true (c0 :: rest) true errs sbc t =
      .ok ((false, errs', sbc ++ [(stripExt c0, false)]), t) := by
  obtain ⟨⟨p, a⟩, hpa⟩ := Option.isSome_iff_exists.1 hp
  obtain ⟨perrs, hpc⟩ := platformCheck_char ext backend c0 (env.cfgOf c0) p a
    ((bp (p ++ "_" ++ a)).getD (p, a)) addl true t hclk hbk
  have hcfg : configSolvable ext backend c0 (env.cfgOf c0) p a
      ((bp (p ++ "_" ++ a)).getD (p, a)) addl = false := by
    simpa [aggEntrySolvable, hpa] using huns
  refine ⟨errs ++ perrs.map (fun e => stripExt c0 ++ ": " ++ e), ?_⟩
  simp only [aggLoop, check_noclock t hclk, hpa, hpc, hcfg]
  simp

/-- Bool fact used when composing an unsolvable metadata with later ones. -/
theorem bool_and_left_false : ∀ a b c : Bool,
    (a && b) = false → (a && (b && c)) = false := by decide

/-! ## The claims -/

/-- C1 counterexample: the claim says that in the native, non-noarch,
not-build-is-host regime `run_req` gains nothing, but line 349 adds the
`strong` bucket to `run_req` before the `build_is_host` split, so in that
regime `run_req` gains `strong` as well. -/
theorem c1_counterexample :
    propagateBuildRx mNativeFFF rxW {"h0"} {"r0"} {"c0"} =
      ({"h0"} ∪ rxW.strong, {"r0"} ∪ rxW.strong,
       {"c0"} ∪ rxW.strong_constrains) ∧
    ({"r0"} ∪ rxW.strong : Finset String) ≠ {"r0"} :=
  ⟨by simp [propagateBuildRx, mNativeFFF], by decide⟩

/-- C1 amended: for every metadata whose non-empty build requirement list
solves successfully, the build solve's run exports are propagated per the
decision table, with the native/non-noarch/not-build-is-host row corrected:
if cross, `host_req` gains `strong` and `run_req` gains `strong` unless
noarch; if native, noarch and build-is-host, `run_req` gains `noarch`; if
native, non-noarch and build-is-host, `run_req` gains `strong` and `weak`
and `run_constrained` gains `weak_constrains`; if native, non-noarch and not
build-is-host, `host_req` gains `strong` and `run_req` gains `strong` (not
nothing); and in every regime `run_constrained` additionally gains
`strong_constrains`.  (`propagateBuildRx` is invoked by `buildPhase` exactly
when the non-empty build list solved successfully, lines 317-356.) -/
theorem c1_amended (m : Metadata) (rx : RunExports)
    (h r c : Finset String) :
    (m.is_cross = true →
      propagateBuildRx m rx h r c =
        (h ∪ rx.strong,
         if m.noarch || m.noarch_python then r else r ∪ rx.strong,
         c ∪ rx.strong_constrains)) ∧
    (m.is_cross = false → (m.noarch || m.noarch_python) = true →
      m.build_is_host = true →
      propagateBuildRx m rx h r c =
        (h, r ∪ rx.noarch, c ∪ rx.strong_constrains)) ∧
    (m.is_cross = false → (m.noarch || m.noarch_python) = false →
      m.build_is_host = true →
      propagateBuildRx m rx h r c =
        (h, r ∪ rx.strong ∪ rx.weak,
         c ∪ rx.strong_constrains ∪ rx.weak_constrains)) ∧
    (m.is_cross = false → (m.noarch || m.noarch_python) = false →
      m.build_is_host = false →
      propagateBuildRx m rx h r c =
        (h ∪ rx.strong, r ∪ rx.strong, c ∪ rx.strong_constrains)) ∧
    (c ∪ rx.strong_constrains ⊆ (propagateBuildRx m rx h r c).2.2) := by
  refine ⟨?_, ?_, ?_, ?_, ?_⟩
  · intro h1
    cases hnd : (m.noarch || m.noarch_python) <;>
      simp [propagateBuildRx, h1, hnd]
  · intro h1 h2 h3
    simp [propagateBuildRx, h1, h2, h3]
  · intro h1 h2 h3
    simp [propagateBuildRx, h1, h2, h3]
  · intro h1 h2 h3
    simp [propagateBuildRx, h1, h2, h3]
  · cases h1 : m.is_cross <;> cases h2 : (m.noarch || m.noarch_python) <;>
      cases h3 : m.build_is_host <;>
      simp [propagateBuildRx, h1, h2, h3] <;>
      first
        | exact Finset.Subset.refl _
        | exact Finset.subset_union_left
        | exact Finset.union_subset_union (Finset.Subset.refl _)
            Finset.subset_union_left

/-- C1 amended witness: the cross regime evaluated at concrete inputs
through the theorem. -/
theorem c1_amended_witness :
    propagateBuildRx mCross rxW {"h0"} {"r0"} {"c0"} =
      ({"h0"} ∪ rxW.strong, {"r0"} ∪ rxW.strong,
       {"c0"} ∪ rxW.strong_constrains) := by
  have h := (c1_amended mCross rxW {"h0"} {"r0"} {"c0"}).1 rfl
  simpa [mCross] using h

/-- C2 counterexample: the claim says that for every boolean triple
`(is_cross, noarch, build_is_host)` exactly one of the four table rows
applies, but at `(false, true, false)` no row applies — and that triple is a
real propagation branch of the code, which there adds only
`strong_constrains` to `run_constrained`. -/
theorem c2_counterexample :
    rowCount false true false = 0 ∧
    propagateBuildRx mNativeNoarch rxW {"h0"} {"r0"} {"c0"} =
      ({"h0"}, {"r0"}, {"c0"} ∪ rxW.strong_constrains) :=
  ⟨by decide, by simp [propagateBuildRx, mNativeNoarch]⟩

/-- C2 amended: the four table rows are mutually exclusive, and exhaustive
over all triples except `(is_cross, noarch, build_is_host) =
(false, true, false)`; on that remaining triple no row applies, and the
code's propagation branch leaves `host_req` and `run_req` unchanged, adding
only `strong_constrains` to `run_constrained`. -/
theorem c2_amended :
    (∀ cross nd bih, rowCount cross nd bih ≤ 1) ∧
    (∀ cross nd bih, ¬(cross = false ∧ nd = true ∧ bih = false) →
      rowCount cross nd bih = 1) ∧
    rowCount false true false = 0 ∧
    (∀ m rx h r c, m.is_cross = false →
      (m.noarch || m.noarch_python) = true → m.build_is_host = false →
      propagateBuildRx m rx h r c = (h, r, c ∪ rx.strong_constrains)) := by
  refine ⟨by decide, by decide, by decide, ?_⟩
  intro m rx h r c h1 h2 h3
  simp [propagateBuildRx, h1, h2, h3]

/-- C2 amended witness: a covered triple has exactly one row, and the code's
branch at the uncovered triple evaluated at concrete inputs through the
theorem. -/
theorem c2_amended_witness :
    rowCount true true true = 1 ∧
    propagateBuildRx mNativeNoarch rx0 {"h1"} {"r1"} {"c1"} =
      ({"h1"}, {"r1"}, {"c1"} ∪ rx0.strong_constrains) :=
  ⟨c2_amended.2.1 true true true (by simp),
   c2_amended.2.2.2 mNativeNoarch rx0 {"h1"} {"r1"} {"c1"} rfl rfl rfl⟩

/-- C3: whenever the shared deadline expires during the check (the inner
check raises the timeout signal), `is_recipe_solvable` catches it and
returns exactly `(True, [], {})`; in particular a timeout budget of `0` with
any positive first elapsed reading (a non-trivial recipe) yields
`(True, [], {})` — never a `False` result and never a timeout entry in the
errors list. -/
theorem c3_timeout_fail_open (ext : Ext) (env : Env)
    (addl0 : Option (List String)) (bp : String → Option (String × String))
    (backend : String) (ff : Bool) (timeout : Option Nat)
    (clock : List Nat) :
    (isRecipeSolvableInner ext env addl0 bp backend ff
        ⟨timeout.getD 600000, clock⟩ = .error .timeout →
      is_recipe_solvable ext env addl0 bp backend ff timeout clock =
        .ok (true, [], [])) ∧
    (∀ e rest, clock = e :: rest → 1 ≤ e →
      is_recipe_solvable ext env addl0 bp backend ff (some 0) clock =
        .ok (true, [], [])) := by
  constructor
  · intro h
    unfold is_recipe_solvable
    rw [h]
  · intro e rest hc he
    subst hc
    unfold is_recipe_solvable isRecipeSolvableInner
    simp [check, Nat.lt_of_lt_of_le Nat.zero_lt_one he]

/-- C3 witness: budget 0 with a first elapsed reading of 1 makes the inner
check raise the timeout, and the public entry point fails open. -/
theorem c3_witness :
    isRecipeSolvableInner extW envW none (fun _ => none) "rattler" false
      ⟨(some 0 : Option Nat).getD 600000, [1]⟩ = .error .timeout ∧
    is_recipe_solvable extW envW none (fun _ => none) "rattler" false
      (some 0) [1] = .ok (true, [], []) := by
  have h : isRecipeSolvableInner extW envW none (fun _ => none) "rattler"
      false ⟨(some 0 : Option Nat).getD 600000, [1]⟩ = .error .timeout := by
    rfl
  exact ⟨h, (c3_timeout_fail_open extW envW none (fun _ => none) "rattler"
    false (some 0) [1]).1 h⟩

/-- C4: when the timer never fires, a feedstock with zero `.ci_support`
config files returns exactly `(False, [explanatory error], {})`, and a
feedstock whose `recipe/meta.yaml` is missing returns
`(False, [non-empty errors], {})` — in both cases without raising an
exception (the result is an `.ok`). -/
theorem c4_structural_errors (ext : Ext) (env : Env)
    (addl0 : Option (List String)) (bp : String → Option (String × String))
    (backend : String) (ff : Bool) (t : TimerState) (hclk : t.clock = []) :
    (env.cbcFiles = [] →
      isRecipeSolvableInner ext env addl0 bp backend ff t =
        .ok ((false, [noCbcMsg], []), t) ∧ ([noCbcMsg] : List String) ≠ []) ∧
    (env.metaYamlExists = false →
      ∃ errs, isRecipeSolvableInner ext env addl0 bp backend ff t =
        .ok ((false, errs, []), t) ∧ errs ≠ []) := by
  constructor
  · intro h
    refine ⟨?_, by simp⟩
    unfold isRecipeSolvableInner
    rw [check_noclock t hclk]
    simp [h, sortStrings]
  · intro h
    unfold isRecipeSolvableInner
    rw [check_noclock t hclk]
    cases hcb : sortStrings env.cbcFiles with
    | nil => exact ⟨[noCbcMsg], by simp [hcb], by simp⟩
    | cons a l => exact ⟨[noMetaMsg], by simp [hcb, h], by simp⟩

/-- C4 witness: both structural errors evaluated at concrete feedstocks
through the theorem. -/
theorem c4_witness :
    isRecipeSolvableInner extW envNoCbc none (fun _ => none) "rattler" false
      tW = .ok ((false, [noCbcMsg], []), tW) ∧
    ∃ errs, isRecipeSolvableInner extW envNoMeta none (fun _ => none)
      "rattler" false tW = .ok ((false, errs, []), tW) ∧ errs ≠ [] := by
  refine ⟨((c4_structural_errors extW envNoCbc none (fun _ => none) "rattler"
    false tW rfl).1 rfl).1, ?_⟩
  exact (c4_structural_errors extW envNoMeta none (fun _ => none) "rattler"
    false tW rfl).2 rfl

/-- C5: whenever a phase's solve call reports unsolvable for a metadata
object (a failing event in the chain's trace): the configuration's solvable
flag becomes false; a reported error string is recorded; the failing event
is the last one the chain emitted (remaining phases of this metadata are
skipped); with fail-fast, the chain breaks and the whole configuration stops
— the metas loop's result does not depend on the remaining metadata objects;
without fail-fast, the chain does not break, the loop continues into the
remaining metadata objects, and the configuration's final solvable value is
still false. -/
theorem c5_phase_failure_policy (ext : Ext) (sol bsol : Solver) (ff : Bool)
    (onames : List String) (m : Metadata) (sv : Bool) (t t' : TimerState)
    (out : MetaOut) (ev : Ev)
    (hrun : processMeta ext sol bsol ff onames m sv t = .ok (out, t'))
    (hev : ev ∈ out.evs) (hfail : ev.ok = false) :
    out.solvable = false ∧
    (∀ e, ev.err = some e → e ∈ out.errors) ∧
    out.evs.getLast? = some ev ∧
    (ff = true → out.brk = true ∧
      ∀ rest rest' errsA evsA,
        processMetas ext sol bsol true onames (m :: rest) sv errsA evsA t =
        processMetas ext sol bsol true onames (m :: rest') sv errsA evsA t) ∧
    (ff = false → out.brk = false ∧
      (∀ rest errsA evsA,
        processMetas ext sol bsol false onames (m :: rest) sv errsA evsA t =
        processMetas ext sol bsol false onames rest out.solvable
          (errsA ++ out.errors) (evsA ++ out.evs) t') ∧
      (∀ rest errsA evsA fsv ferrs fevs t2,
        processMetas ext sol bsol false onames (m :: rest) sv errsA evsA t =
          .ok ((fsv, ferrs, fevs), t2) → fsv = false)) := by
  obtain ⟨h1, h2, h3, h4⟩ :=
    processMeta_fail _ _ _ _ _ _ _ _ _ _ hrun ev hev hfail
  refine ⟨h1, h2, h3, ?_, ?_⟩
  · intro hf
    subst hf
    refine ⟨h4, ?_⟩
    intro rest rest' errsA evsA
    simp [processMetas, hrun, h4]
  · intro hf
    subst hf
    refine ⟨h4, ?_, ?_⟩
    · intro rest errsA evsA
      simp [processMetas, hrun, h4]
    · intro rest errsA evsA fsv ferrs fevs t2 hh
      obtain ⟨hsol, _⟩ := processMeta_char _ _ _ _ _ _ _ _ _ _ hrun
      rw [processMetas_char _ _ _ _ _ _ _ _ _ _ _ _ _ _ hh]
      simp only [List.all_cons]
      exact bool_and_left_false _ _ _ (hsol ▸ h1)

/-- C5 witness: a failing build solve under fail-fast evaluated at concrete
inputs through the theorem. -/
theorem c5_witness :
    outW.solvable = false ∧ outW.evs.getLast? = some evW ∧
    outW.brk = true := by
  have h := c5_phase_failure_policy extW failSolver failSolver true []
    mCross true tW tW outW evW (by rfl) (by decide) (by decide)
  exact ⟨h.1, h.2.2.1, (h.2.2.2.1 rfl).1⟩

/-- C6: for a recipe with at least two config files whose alphabetically
first config is unsolvable, the fail-fast call yields a per-config map with
strictly fewer entries than the non-fail-fast call: it records the first
unsolvable config's entry and stops iterating.  (`Nodup` of the stripped
names makes the entry count of the association list equal the size of the
Python dict.) -/
theorem c6_fail_fast_fewer_entries (ext : Ext) (env : Env)
    (addl0 : Option (List String)) (bp : String → Option (String × String))
    (backend : String) (c0 c1 : String) (rest : List String)
    (t : TimerState) (hclk : t.clock = [])
    (hbk : backend = "rattler" ∨ backend = "mamba")
    (hmeta : env.metaYamlExists = true)
    (hsort : sortStrings env.cbcFiles = c0 :: c1 :: rest)
    (hparse : ∀ c ∈ c0 :: c1 :: rest, (parsePlatformArch c).isSome)
    (hnodup : ((c0 :: c1 :: rest).map stripExt).Nodup)
    (huns : aggEntrySolvable ext env backend bp
      (addl0.getD [] ++ [ext.vpr]) c0 = false) :
    ∃ errsT errsF sbcF,
      isRecipeSolvableInner ext env addl0 bp backend true t =
        .ok ((false, errsT, [(stripExt c0, false)]), t) ∧
      isRecipeSolvableInner ext env addl0 bp backend false t =
        .ok ((false, errsF, sbcF), t) ∧
      sbcF.length = (c0 :: c1 :: rest).length ∧
      ([(stripExt c0, false)] : List (String × Bool)).length < sbcF.length := by
  obtain ⟨errsT, hT⟩ := aggLoop_true_fst ext env backend bp
    (addl0.getD [] ++ [ext.vpr]) c0 (c1 :: rest) [] [] t hclk hbk
    (hparse c0 (by simp)) huns
  obtain ⟨errsF, hF⟩ := aggLoop_false_char ext env backend bp
    (addl0.getD [] ++ [ext.vpr]) (c0 :: c1 :: rest) true [] [] t hclk hbk
    hparse
  refine ⟨errsT, errsF,
    (c0 :: c1 :: rest).map (fun c => (stripExt c,
      aggEntrySolvable ext env backend bp (addl0.getD [] ++ [ext.vpr]) c)),
    ?_, ?_, by simp, by simp⟩
  · unfold isRecipeSolvableInner
    rw [check_noclock t hclk, hsort]
    simp [hmeta, hT]
  · unfold isRecipeSolvableInner
    rw [check_noclock t hclk, hsort]
    simp [hmeta, hF, List.all_cons, huns]

/-- C6 witness: two configs, the first unsolvable, evaluated at concrete
inputs through the theorem. -/
theorem c6_witness :
    ∃ errsT errsF sbcF,
      isRecipeSolvableInner extW envTwo none (fun _ => none) "rattler" true
        tW = .ok ((false, errsT, [(stripExt "a_64.yaml", false)]), tW) ∧
      isRecipeSolvableInner extW envTwo none (fun _ => none) "rattler" false
        tW = .ok ((false, errsF, sbcF), tW) ∧
      sbcF.length = (["a_64.yaml", "b_64.yaml"] : List String).length ∧
      ([(stripExt "a_64.yaml", false)] : List (String × Bool)).length <
        sbcF.length :=
  c6_fail_fast_fewer_entries extW envTwo none (fun _ => none) "rattler"
    "a_64.yaml" "b_64.yaml" [] tW rfl (Or.inl rfl) rfl (by decide)
    (by decide) (by decide) (by decide)

/-- C7 counterexample: the claim says that when the second token is not a
recognized architecture, the full remainder of the filename is folded back
into the platform token; the code instead always keeps only the first token
as the platform. -/
theorem c7_counterexample :
    parsePlatformArch "linux_weird.yaml" = some ("linux", "64") ∧
    claimC7Decompose "linux_weird.yaml" = some ("linux_weird.yaml", "64") ∧
    parsePlatformArch "linux_weird.yaml" ≠
      claimC7Decompose "linux_weird.yaml" :=
  ⟨by decide, by decide, by decide⟩

/-- C7 amended: the platform is always the first underscore-delimited token
(the remainder is discarded, never folded back); the arch is the second
token when it is in the recognized set and `"64"` otherwise; and the
decomposition is defined only when the basename contains an underscore
(otherwise the `_parts[1]` access fails). -/
theorem c7_amended :
    (∀ b l1 l2 rest, splitChar '_' b = l1 :: l2 :: rest →
      parsePlatformArch b =
        some (l1, if l2 ∈ archWhitelist then l2 else "64")) ∧
    (∀ b x, splitChar '_' b = [x] → parsePlatformArch b = none) := by
  constructor
  · intro b l1 l2 rest h
    simp [parsePlatformArch, h]
  · intro b x h
    simp [parsePlatformArch, h]

/-- C7 amended witness: a recognized arch token and a no-underscore
basename, evaluated through the theorem. -/
theorem c7_amended_witness :
    parsePlatformArch "linux_aarch64_python3.yaml" =
      some ("linux", "aarch64") ∧
    parsePlatformArch "linux.yaml" = none := by
  constructor
  · have h := c7_amended.1 "linux_aarch64_python3.yaml" "linux" "aarch64"
      ["python3.yaml"] (by decide)
    rw [h]
    decide
  · exact c7_amended.2 "linux.yaml" "linux.yaml" (by decide)

/-- C8: the channel list handed to the solver factory equals the additional
channels followed by the config's declared channel sources (comma-joined
entries split and stripped, `["conda-forge", "defaults"]` when absent), with
`msys2` appended when the target platform starts with `win` and that channel
is not already present in the channel-source list. -/
theorem c8_channel_sources (cfg : Option (List String)) (platform : String)
    (additional : List String) :
    computeChannelSources cfg platform additional =
      claimC8ChannelList cfg platform additional := by
  have key : ∀ (d : List String),
      (if additional ≠ [] then
        additional ++
          (if "msys2" ∉ d ∧ strStartsWith "win" platform then d ++ ["msys2"]
           else d)
       else
        (if "msys2" ∉ d ∧ strStartsWith "win" platform then d ++ ["msys2"]
         else d)) =
      additional ++
        (if strStartsWith "win" platform ∧ "msys2" ∉ d then d ++ ["msys2"]
         else d) := by
    intro d
    by_cases hw : strStartsWith "win" platform = true <;>
      by_cases hm : "msys2" ∈ d <;>
      by_cases hadd : additional = [] <;>
      simp [hw, hm, hadd]
  cases cfg <;> simp only [computeChannelSources, claimC8ChannelList] <;>
    exact key _

/-- C9: the filename encoding `{platform}[_{arch}]` admits basenames with no
underscore, and the code's own comment documents that conda-smithy omits the
arch when it is 64; but on such a basename the `_parts[1]` access goes out
of bounds (an `IndexError`), instead of `arch` defaulting to `"64"`: the
decomposition is not total, and the whole check raises. -/
theorem c9_index_error_on_no_underscore :
    parsePlatformArch "linux.yaml" = none ∧
    isRecipeSolvableInner extW envNoUnderscore none (fun _ => none)
      "rattler" false ⟨600000, []⟩ = .error .indexError := by
  constructor
  · decide
  · rfl

/-- C10: a non-empty caller-owned `additional_channels` list is mutated in
place — after the call the caller's list object holds the old contents plus
the appended virtual-package repodata channel, and is not left unchanged. -/
theorem c10_additional_channels_mutated (l : List String) (vpr : String)
    (h : l ≠ []) :
    additionalChannelsAfterCall l vpr = l ++ [vpr] ∧
    additionalChannelsAfterCall l vpr ≠ l := by
  have hne : l.isEmpty = false := by
    cases l with
    | nil => exact absurd rfl h
    | cons a l => rfl
  constructor
  · simp [additionalChannelsAfterCall, hne]
  · simp only [additionalChannelsAfterCall, hne, Bool.false_eq_true,
      if_false]
    intro heq
    have hlen := congrArg List.length heq
    simp at hlen

/-- C10 witness: a concrete non-empty caller list, evaluated through the
theorem. -/
theorem c10_witness :
    additionalChannelsAfterCall ["conda-forge"] "file://vpkg" =
      ["conda-forge", "file://vpkg"] ∧
    additionalChannelsAfterCall ["conda-forge"] "file://vpkg" ≠
      ["conda-forge"] := by
  have h := c10_additional_channels_mutated ["conda-forge"] "file://vpkg"
    (by decide)
  exact ⟨h.1, h.2⟩

end CheckSolvable
